import Mathlib

/-!
Verification of the orbital-mechanics core of the ftl-hole repository.

The embedding translates the Rust source into Lean over exact real
arithmetic: `f64` values become `ℝ`, the nalgebra vector operations
(dot, cross, norm, normalize) become the corresponding functions on a
3-component record, and the nalgebra rotation type becomes a function
on vectors built from the axis-angle (Rodrigues) formula.  Where a
claim is specifically about IEEE domain errors (acos outside
[-1, 1] yielding NaN) the affected scalar function is modelled with an
`Option ℝ` result, `none` standing for NaN.
-/

noncomputable section

open Real

/-- Three-component vector over the reals, standing for nalgebra `Vec3<f64>`. -/
@[ext]
structure Vec3 where
  x : ℝ
  y : ℝ
  z : ℝ

instance : Zero Vec3 := ⟨⟨0, 0, 0⟩⟩

instance : Add Vec3 := ⟨fun a b => ⟨a.x + b.x, a.y + b.y, a.z + b.z⟩⟩

instance : Sub Vec3 := ⟨fun a b => ⟨a.x - b.x, a.y - b.y, a.z - b.z⟩⟩

instance : Neg Vec3 := ⟨fun a => ⟨-a.x, -a.y, -a.z⟩⟩

instance : HMul Vec3 ℝ Vec3 := ⟨fun a s => ⟨a.x * s, a.y * s, a.z * s⟩⟩

instance : HDiv Vec3 ℝ Vec3 := ⟨fun a s => ⟨a.x / s, a.y / s, a.z / s⟩⟩

@[simp] theorem Vec3.zero_x : (0 : Vec3).x = 0 := rfl

@[simp] theorem Vec3.zero_y : (0 : Vec3).y = 0 := rfl

@[simp] theorem Vec3.zero_z : (0 : Vec3).z = 0 := rfl

@[simp] theorem Vec3.add_x (a b : Vec3) : (a + b).x = a.x + b.x := rfl

@[simp] theorem Vec3.add_y (a b : Vec3) : (a + b).y = a.y + b.y := rfl

@[simp] theorem Vec3.add_z (a b : Vec3) : (a + b).z = a.z + b.z := rfl

@[simp] theorem Vec3.sub_x (a b : Vec3) : (a - b).x = a.x - b.x := rfl

@[simp] theorem Vec3.sub_y (a b : Vec3) : (a - b).y = a.y - b.y := rfl

@[simp] theorem Vec3.sub_z (a b : Vec3) : (a - b).z = a.z - b.z := rfl

@[simp] theorem Vec3.neg_x (a : Vec3) : (-a).x = -a.x := rfl

@[simp] theorem Vec3.neg_y (a : Vec3) : (-a).y = -a.y := rfl

@[simp] theorem Vec3.neg_z (a : Vec3) : (-a).z = -a.z := rfl

@[simp] theorem Vec3.smul_x (a : Vec3) (s : ℝ) : (a * s).x = a.x * s := rfl

@[simp] theorem Vec3.smul_y (a : Vec3) (s : ℝ) : (a * s).y = a.y * s := rfl

@[simp] theorem Vec3.smul_z (a : Vec3) (s : ℝ) : (a * s).z = a.z * s := rfl

@[simp] theorem Vec3.div_x (a : Vec3) (s : ℝ) : (a / s).x = a.x / s := rfl

@[simp] theorem Vec3.div_y (a : Vec3) (s : ℝ) : (a / s).y = a.y / s := rfl

@[simp] theorem Vec3.div_z (a : Vec3) (s : ℝ) : (a / s).z = a.z / s := rfl

/-- Dot product, standing for nalgebra `dot`. -/
def Vec3.dot (a b : Vec3) : ℝ := a.x * b.x + a.y * b.y + a.z * b.z

/-- Cross product, standing for nalgebra `cross`. -/
def Vec3.cross (a b : Vec3) : Vec3 :=
  ⟨a.y * b.z - a.z * b.y, a.z * b.x - a.x * b.z, a.x * b.y - a.y * b.x⟩

/-- Squared norm, standing for nalgebra `sqnorm`. -/
def Vec3.sqnorm (a : Vec3) : ℝ := Vec3.dot a a

/-- Euclidean norm, standing for nalgebra `norm`. -/
def Vec3.norm (a : Vec3) : ℝ := Real.sqrt (Vec3.sqnorm a)

/-- Unit vector in the direction of `a`, standing for nalgebra `normalize`. -/
def Vec3.normalize (a : Vec3) : Vec3 := a / Vec3.norm a

/-- Absolute-tolerance comparison threshold used by the `approx_eq` calls in
the source (an external nalgebra helper; the spec documents the tolerance as
the fixed absolute value 1e-7). -/
def approxEps : ℝ := 1e-7

/-- Approximate scalar equality, standing for the external `approx_eq`
used by the source: absolute difference at most `approxEps`. -/
def approxEq (a b : ℝ) : Prop := |a - b| ≤ approxEps

instance approxEq.instDecidable (a b : ℝ) : Decidable (approxEq a b) := by
  unfold approxEq
  infer_instance

/-- Central body, from `CB` in src/src/orbit.rs: gravitational parameter and
an orthonormal right-handed basis. -/
structure CB where
  mu : ℝ
  i : Vec3
  j : Vec3
  k : Vec3

/-- Constructor `CB::new` from src/src/orbit.rs: the hard-coded standard
basis with `j = cross(k, i)`. -/
def CB.new (mu : ℝ) : CB :=
  { mu := mu
    i := ⟨1, 0, 0⟩
    j := Vec3.cross ⟨0, 0, 1⟩ ⟨1, 0, 0⟩
    k := ⟨0, 0, 1⟩ }

/-- Rotation of `v` by the axis-angle vector `w` (angle = `|w|`, axis =
`w/|w|`), via the Rodrigues formula; the identity when `w = 0`.  This models
the external nalgebra `Rot3` axis-angle rotation used by `Koe::new`. -/
def rodrigues (w v : Vec3) : Vec3 :=
  let t := Vec3.norm w
  if t = 0 then v
  else
    let u := w / t
    v * Real.cos t + Vec3.cross u v * Real.sin t +
      u * ((1 - Real.cos t) * Vec3.dot u v)

/-- Keplerian orbital elements, from `Koe` in src/src/orbit.rs.  The cached
rotation `rot` is represented by its action on vectors. -/
structure Koe where
  a : ℝ
  e : ℝ
  inc : ℝ
  lan : ℝ
  ap : ℝ
  m0 : ℝ
  n : ℝ
  rot : Vec3 → Vec3
  cb : CB

/-- Cartesian state vectors, from `Csv` in src/src/orbit.rs. -/
structure Csv where
  r : Vec3
  v : Vec3
  cb : CB

/-- Analytic propagation `Koe::tick` from src/src/orbit.rs lines 39-45:
only the mean anomaly changes, by `n * dt`. -/
def Koe.tick (koe : Koe) (dt : ℝ) : Koe :=
  { koe with m0 := koe.m0 + koe.n * dt }

/-- Constructor `Koe::new` from src/src/orbit.rs lines 48-84.  The rotation
starts as the identity; the `lan` and `inc` rotations are prepended only when
the orbit is not (approximately) equatorial, and the `ap` rotation only when
it is not (approximately) circular.  Prepending a rotation applies it before
the existing one. -/
def Koe.new (a e inc lan ap m0 : ℝ) (cb : CB) : Koe :=
  let rot1 : Vec3 → Vec3 :=
    if approxEq inc 0 then id
    else fun p => rodrigues (cb.k * lan) (rodrigues (cb.i * inc) p)
  let rot2 : Vec3 → Vec3 :=
    if approxEq e 0 then rot1
    else fun p => rot1 (rodrigues (cb.k * ap) p)
  { a := a, e := e, inc := inc, lan := lan, ap := ap, m0 := m0
    n := Real.sqrt (cb.mu / a ^ 3), rot := rot2, cb := cb }

/-- Kepler solver `Csv::newton_raphson` from src/src/orbit.rs lines 262-268:
the stated number of Newton-Raphson iterations starting from `m0`, with no
convergence check. -/
def Csv.newton_raphson (m0 e : ℝ) : ℕ → ℝ
  | 0 => m0
  | it + 1 =>
    let ea := Csv.newton_raphson m0 e it
    ea - (ea - e * Real.sin ea - m0) / (1 - e * Real.cos ea)

/-- Two-argument arctangent with the IEEE quadrant conventions, modelling
`f64::atan2` (receiver is `y`, argument is `x`). -/
def atan2 (y x : ℝ) : ℝ :=
  if 0 < x then Real.arctan (y / x)
  else if x < 0 then
    (if 0 ≤ y then Real.arctan (y / x) + Real.pi else Real.arctan (y / x) - Real.pi)
  else
    (if 0 < y then Real.pi / 2 else if y < 0 then -(Real.pi / 2) else 0)

/-- Conversion `Csv::from_koe` from src/src/orbit.rs lines 235-259. -/
def Csv.from_koe (koe : Koe) : Csv :=
  let m0 := koe.m0
  let ea := Csv.newton_raphson m0 koe.e 10
  let ta := 2 * atan2 (Real.sqrt (1 + koe.e) * Real.sin (ea / 2))
      (Real.sqrt (1 - koe.e) * Real.cos (ea / 2))
  let dist := koe.a * (1 - koe.e * Real.cos ea)
  let r := (koe.cb.i * Real.cos ta + koe.cb.j * Real.sin ta) * dist
  let v := (koe.cb.i * (-Real.sin ea) +
      koe.cb.j * (Real.sqrt (1 - koe.e ^ 2) * Real.cos ea)) *
      (Real.sqrt (koe.cb.mu * koe.a) / dist)
  { r := koe.rot r, v := koe.rot v, cb := koe.cb }

/-- Model of `f64::acos` that tracks the IEEE domain error: `none` stands
for NaN, produced exactly when the argument lies outside `[-1, 1]`. -/
def acosOpt (x : ℝ) : Option ℝ :=
  if x < -1 ∨ 1 < x then none else some (Real.arccos x)

/-- NaN-tracking model of the inclination computation of `Koe::from_csv`
(src/src/orbit.rs lines 114-118) as a function of the already-computed
cosine `cos_inc`: the source tests only `cos_inc > 1.0`, mapping that case
to inclination 0, and otherwise applies acos directly. -/
def Csv.incFromCosInc (c : ℝ) : Option ℝ :=
  if 1 < c then some 0 else acosOpt c

/-- Definition following the claim wording: clamp the cosine to `[-1, 1]`
and then apply acos, which never incurs a domain error. -/
def Csv.incClamped (c : ℝ) : Option ℝ :=
  some (Real.arccos (max (-1) (min 1 c)))

/-- Specific angular momentum `h = cross(r, v)` from `Koe::from_csv`
(src/src/orbit.rs line 101). -/
def Csv.hvec (csv : Csv) : Vec3 := Vec3.cross csv.r csv.v

/-- Eccentricity vector `e = cross(v, h)/mu - normalize(r)` from
`Koe::from_csv` (src/src/orbit.rs line 106). -/
def Csv.eVec (csv : Csv) : Vec3 :=
  Vec3.cross csv.v (Csv.hvec csv) / csv.cb.mu - Vec3.normalize csv.r

/-- Node vector `n = cross(k, h)` from `Koe::from_csv`
(src/src/orbit.rs line 112). -/
def Csv.nvec (csv : Csv) : Vec3 := Vec3.cross csv.cb.k (Csv.hvec csv)

/-- Cosine of the inclination `dot(h, k) / norm(h)` from `Koe::from_csv`
(src/src/orbit.rs line 114). -/
def Csv.cosInc (csv : Csv) : ℝ :=
  Vec3.dot (Csv.hvec csv) csv.cb.k / Vec3.norm (Csv.hvec csv)

/-- Inclination from `Koe::from_csv` (src/src/orbit.rs line 118): the guard
maps a cosine above 1 to inclination 0, otherwise applies acos. -/
def Csv.incOf (csv : Csv) : ℝ :=
  if 1 < Csv.cosInc csv then 0 else Real.arccos (Csv.cosInc csv)

/-- Scalar eccentricity `es = norm(e)` from `Koe::from_csv`
(src/src/orbit.rs line 121). -/
def Csv.es (csv : Csv) : ℝ := Vec3.norm (Csv.eVec csv)

/-- Longitude of ascending node before the degenerate override, from
`Koe::from_csv` (src/src/orbit.rs lines 125-129). -/
def Csv.lanRaw (csv : Csv) : ℝ :=
  if 0 ≤ Vec3.dot (Csv.nvec csv) csv.cb.j then
    Real.arccos (Vec3.dot (Csv.nvec csv) csv.cb.i / Vec3.norm (Csv.nvec csv))
  else
    2 * Real.pi -
      Real.arccos (Vec3.dot (Csv.nvec csv) csv.cb.i / Vec3.norm (Csv.nvec csv))

/-- Argument of periapsis before the degenerate overrides, from
`Koe::from_csv` (src/src/orbit.rs lines 131-138), with the sign test against
`right = cross(h, n)`. -/
def Csv.apRaw (csv : Csv) : ℝ :=
  if 0 ≤ Vec3.dot (Csv.eVec csv) (Vec3.cross (Csv.hvec csv) (Csv.nvec csv)) then
    Real.arccos (Vec3.dot (Csv.nvec csv) (Csv.eVec csv) /
      (Vec3.norm (Csv.nvec csv) * Vec3.norm (Csv.eVec csv)))
  else
    2 * Real.pi - Real.arccos (Vec3.dot (Csv.nvec csv) (Csv.eVec csv) /
      (Vec3.norm (Csv.nvec csv) * Vec3.norm (Csv.eVec csv)))

/-- Longitude of periapsis used by the equatorial non-circular override, from
`Koe::from_csv` (src/src/orbit.rs lines 152-157). -/
def Csv.lonPeri (csv : Csv) : ℝ :=
  if 0 ≤ Vec3.dot (Csv.eVec csv) csv.cb.j then
    Real.arccos (Vec3.dot csv.cb.i (Csv.eVec csv) / Vec3.norm (Csv.eVec csv))
  else
    2 * Real.pi -
      Real.arccos (Vec3.dot csv.cb.i (Csv.eVec csv) / Vec3.norm (Csv.eVec csv))

/-- Final longitude of ascending node from `Koe::from_csv`
(src/src/orbit.rs lines 145-148): forced to 0 for an approximately
equatorial orbit. -/
def Csv.lanOf (csv : Csv) : ℝ :=
  if approxEq (Csv.incOf csv) 0 then 0 else Csv.lanRaw csv

/-- Final argument of periapsis from `Koe::from_csv` (src/src/orbit.rs lines
140-158): 0 for an approximately circular orbit, the longitude of periapsis
for an equatorial non-circular orbit, otherwise the raw value. -/
def Csv.apOf (csv : Csv) : ℝ :=
  if approxEq (Csv.es csv) 0 then 0
  else if approxEq (Csv.incOf csv) 0 then Csv.lonPeri csv
  else Csv.apRaw csv

/-- True anomaly before the circular-orbit overrides, from `Koe::from_csv`
(src/src/orbit.rs lines 162-166). -/
def Csv.taRaw (csv : Csv) : ℝ :=
  if 0 ≤ Vec3.dot csv.r csv.v then
    Real.arccos (Vec3.dot (Csv.eVec csv) csv.r /
      (Vec3.norm (Csv.eVec csv) * Vec3.norm csv.r))
  else
    2 * Real.pi - Real.arccos (Vec3.dot (Csv.eVec csv) csv.r /
      (Vec3.norm (Csv.eVec csv) * Vec3.norm csv.r))

/-- Longitude (angle from the reference axis `i` to `r`) used as true anomaly
for circular equatorial orbits, from `Koe::from_csv`
(src/src/orbit.rs lines 172-176). -/
def Csv.taLon (csv : Csv) : ℝ :=
  if Vec3.dot csv.cb.i csv.v ≤ 0 then
    Real.arccos (Vec3.dot csv.cb.i csv.r /
      (Vec3.norm csv.cb.i * Vec3.norm csv.r))
  else
    2 * Real.pi - Real.arccos (Vec3.dot csv.cb.i csv.r /
      (Vec3.norm csv.cb.i * Vec3.norm csv.r))

/-- Argument of latitude used as true anomaly for circular inclined orbits,
from `Koe::from_csv` (src/src/orbit.rs lines 180-184). -/
def Csv.taLat (csv : Csv) : ℝ :=
  if Vec3.dot (Csv.nvec csv) csv.v ≤ 0 then
    Real.arccos (Vec3.dot (Csv.nvec csv) csv.r /
      (Vec3.norm (Csv.nvec csv) * Vec3.norm csv.r))
  else
    2 * Real.pi - Real.arccos (Vec3.dot (Csv.nvec csv) csv.r /
      (Vec3.norm (Csv.nvec csv) * Vec3.norm csv.r))

/-- Final true anomaly from `Koe::from_csv` (src/src/orbit.rs lines 160-186),
with the circular-orbit branch precedence of the source. -/
def Csv.taOf (csv : Csv) : ℝ :=
  if approxEq (Csv.es csv) 0 then
    (if approxEq (Csv.incOf csv) 0 then Csv.taLon csv else Csv.taLat csv)
  else Csv.taRaw csv

/-- Eccentric anomaly from `Koe::from_csv` (src/src/orbit.rs line 189). -/
def Csv.eaOf (csv : Csv) : ℝ :=
  2 * Real.arctan (Real.tan (Csv.taOf csv / 2) /
    Real.sqrt ((1 + Csv.es csv) / (1 - Csv.es csv)))

/-- Mean anomaly from `Koe::from_csv` (src/src/orbit.rs line 192). -/
def Csv.m0Of (csv : Csv) : ℝ :=
  Csv.eaOf csv - Csv.es csv * Real.sin (Csv.eaOf csv)

/-- Semi-major axis from `Koe::from_csv` (src/src/orbit.rs line 194). -/
def Csv.aOf (csv : Csv) : ℝ :=
  1 / (2 / Vec3.norm csv.r - Vec3.sqnorm csv.v / csv.cb.mu)

/-- Conversion `Koe::from_csv` from src/src/orbit.rs lines 87-196, assembled
from the element computations above exactly as the source assembles its
local variables before calling `Koe::new`. -/
def Koe.from_csv (csv : Csv) : Koe :=
  Koe.new (Csv.aOf csv) (Csv.es csv) (Csv.incOf csv) (Csv.lanOf csv)
    (Csv.apOf csv) (Csv.m0Of csv) csv.cb

/-- Two-component vector over the reals, standing for glam `DVec2` in
src/src/main.rs. -/
@[ext]
structure Vec2 where
  x : ℝ
  y : ℝ

instance : Add Vec2 := ⟨fun a b => ⟨a.x + b.x, a.y + b.y⟩⟩

instance : Neg Vec2 := ⟨fun a => ⟨-a.x, -a.y⟩⟩

instance : HMul Vec2 ℝ Vec2 := ⟨fun a s => ⟨a.x * s, a.y * s⟩⟩

instance : HDiv Vec2 ℝ Vec2 := ⟨fun a s => ⟨a.x / s, a.y / s⟩⟩

@[simp] theorem Vec2.two_add_x (a b : Vec2) : (a + b).x = a.x + b.x := rfl

@[simp] theorem Vec2.two_add_y (a b : Vec2) : (a + b).y = a.y + b.y := rfl

@[simp] theorem Vec2.two_neg_x (a : Vec2) : (-a).x = -a.x := rfl

@[simp] theorem Vec2.two_neg_y (a : Vec2) : (-a).y = -a.y := rfl

@[simp] theorem Vec2.two_smul_x (a : Vec2) (s : ℝ) : (a * s).x = a.x * s := rfl

@[simp] theorem Vec2.two_smul_y (a : Vec2) (s : ℝ) : (a * s).y = a.y * s := rfl

@[simp] theorem Vec2.two_div_x (a : Vec2) (s : ℝ) : (a / s).x = a.x / s := rfl

@[simp] theorem Vec2.two_div_y (a : Vec2) (s : ℝ) : (a / s).y = a.y / s := rfl

/-- Length of a 2-vector, standing for glam `DVec2::length`. -/
def Vec2.length (a : Vec2) : ℝ := Real.sqrt (a.x * a.x + a.y * a.y)

/-- Constant `PULL = BLACK_HOLE_MASS * GRAVITATIONAL_CONSTANT` from
src/src/main.rs lines 16-18. -/
def PULL : ℝ := 5.97219e17 * 6.67e-11

/-- Satellite state from `Sat` in src/src/main.rs lines 24-30. -/
structure Sat where
  pos : Vec2
  vel : Vec2
  whenAt : ℝ

/-- Fixed integrator timestep `dt = 0.001` from `Sat::tick_to`
(src/src/main.rs line 34). -/
def Sat.dtStep : ℝ := 0.001

/-- Gravitational acceleration `Sat::acceleration` from src/src/main.rs
lines 43-47: `-pos * PULL / r^3`. -/
def Sat.acceleration (s : Sat) : Vec2 :=
  -s.pos * PULL / (Vec2.length s.pos * Vec2.length s.pos * Vec2.length s.pos)

/-- One iteration of the loop body of `Sat::tick_to` (src/src/main.rs lines
36-39): semi-implicit Euler, the position update using the already-updated
velocity, then the as-of time advanced by the timestep. -/
def Sat.eulerStep (s : Sat) : Sat :=
  let acc := Sat.acceleration s
  let vel := s.vel + acc * Sat.dtStep
  { pos := s.pos + vel * Sat.dtStep, vel := vel, whenAt := s.whenAt + Sat.dtStep }

/-- Integrator `Sat::tick_to` from src/src/main.rs lines 33-41: repeat the
Euler step while the as-of time is less than the requested time. -/
def Sat.tick_to (s : Sat) (t : ℝ) : Sat :=
  if h : s.whenAt < t then Sat.tick_to (Sat.eulerStep s) t else s
termination_by Nat.ceil ((t - s.whenAt) / Sat.dtStep)
decreasing_by
  have hdt : (0 : ℝ) < Sat.dtStep := by norm_num [Sat.dtStep]
  have hy : 0 < (t - s.whenAt) / Sat.dtStep := div_pos (by linarith) hdt
  have hstep : (t - (Sat.eulerStep s).whenAt) / Sat.dtStep
      = (t - s.whenAt) / Sat.dtStep - 1 := by
    simp only [Sat.eulerStep]
    field_simp
    ring
  rw [hstep]
  have hpos : 0 < Nat.ceil ((t - s.whenAt) / Sat.dtStep) := Nat.ceil_pos.mpr hy
  have hle : Nat.ceil ((t - s.whenAt) / Sat.dtStep - 1)
      ≤ Nat.ceil ((t - s.whenAt) / Sat.dtStep) - 1 := by
    rw [Nat.ceil_le, Nat.cast_sub hpos, Nat.cast_one]
    have := Nat.le_ceil ((t - s.whenAt) / Sat.dtStep)
    linarith
  exact lt_of_le_of_lt hle (Nat.sub_lt hpos one_pos)

/-! ### Basic facts about the vector operations -/

theorem Vec3.sqnorm_nonneg (a : Vec3) : 0 ≤ Vec3.sqnorm a := by
  unfold Vec3.sqnorm Vec3.dot
  nlinarith [mul_self_nonneg a.x, mul_self_nonneg a.y, mul_self_nonneg a.z]

theorem Vec3.norm_nonneg (a : Vec3) : 0 ≤ Vec3.norm a := Real.sqrt_nonneg _

theorem Vec3.norm_mul_self (a : Vec3) :
    Vec3.norm a * Vec3.norm a = Vec3.sqnorm a :=
  Real.mul_self_sqrt (Vec3.sqnorm_nonneg a)

theorem Vec3.sqnorm_pos (a : Vec3) (h : a ≠ 0) : 0 < Vec3.sqnorm a := by
  rcases lt_or_eq_of_le (Vec3.sqnorm_nonneg a) with hlt | heq
  · exact hlt
  · exfalso
    apply h
    have h0 : a.x * a.x + a.y * a.y + a.z * a.z = 0 := by
      have := heq.symm
      unfold Vec3.sqnorm Vec3.dot at this
      linarith
    have hx : a.x * a.x = 0 := by
      nlinarith [mul_self_nonneg a.x, mul_self_nonneg a.y, mul_self_nonneg a.z]
    have hy : a.y * a.y = 0 := by
      nlinarith [mul_self_nonneg a.x, mul_self_nonneg a.y, mul_self_nonneg a.z]
    have hz : a.z * a.z = 0 := by
      nlinarith [mul_self_nonneg a.x, mul_self_nonneg a.y, mul_self_nonneg a.z]
    ext
    · exact mul_self_eq_zero.mp hx
    · exact mul_self_eq_zero.mp hy
    · exact mul_self_eq_zero.mp hz

theorem Vec3.norm_pos (a : Vec3) (h : a ≠ 0) : 0 < Vec3.norm a :=
  Real.sqrt_pos.mpr (Vec3.sqnorm_pos a h)

theorem Vec3.norm_zero : Vec3.norm 0 = 0 := by
  unfold Vec3.norm Vec3.sqnorm Vec3.dot
  simp

theorem Vec3.mul_real_zero (a : Vec3) : a * (0 : ℝ) = 0 := by
  ext <;> simp

theorem rodrigues_zero (v : Vec3) : rodrigues 0 v = v := by
  unfold rodrigues
  simp [Vec3.norm_zero]

theorem rodrigues_axis_zero_angle (ax v : Vec3) :
    rodrigues (ax * (0 : ℝ)) v = v := by
  rw [Vec3.mul_real_zero]
  exact rodrigues_zero v

/-! ### Claims C6 and C7: the analytic propagator -/

/-- Claim C6: `Koe::tick(dt)` returns a KOE whose mean anomaly is
`m0 + n * dt` while every other field (a, e, inc, lan, ap, the cached mean
motion n, the cached rotation rot, and the central-body reference cb) is
unchanged, for any signed `dt`. -/
theorem claim_C6 (koe : Koe) (dt : ℝ) :
    (koe.tick dt).m0 = koe.m0 + koe.n * dt ∧
    (koe.tick dt).a = koe.a ∧
    (koe.tick dt).e = koe.e ∧
    (koe.tick dt).inc = koe.inc ∧
    (koe.tick dt).lan = koe.lan ∧
    (koe.tick dt).ap = koe.ap ∧
    (koe.tick dt).n = koe.n ∧
    (koe.tick dt).rot = koe.rot ∧
    (koe.tick dt).cb = koe.cb :=
  ⟨rfl, rfl, rfl, rfl, rfl, rfl, rfl, rfl, rfl⟩

/-- Claim C7: propagating by `dt1` and then by `dt2` yields exactly the same
mean anomaly as propagating once by `dt1 + dt2`. -/
theorem claim_C7 (koe : Koe) (dt1 dt2 : ℝ) :
    ((koe.tick dt1).tick dt2).m0 = (koe.tick (dt1 + dt2)).m0 := by
  simp only [Koe.tick]
  ring

/-! ### Claims C8 and C10: the numeric propagator -/

theorem Sat.eulerStep_whenAt (s : Sat) :
    (Sat.eulerStep s).whenAt = s.whenAt + Sat.dtStep := rfl

theorem Sat.iterate_whenAt (n : ℕ) (s : Sat) :
    (Sat.eulerStep^[n] s).whenAt = s.whenAt + n * Sat.dtStep := by
  induction n generalizing s with
  | zero => simp
  | succ m ih =>
    rw [Function.iterate_succ_apply, ih, Sat.eulerStep_whenAt]
    push_cast
    ring

theorem Sat.tick_to_stopped (s : Sat) (t : ℝ) (h : ¬ s.whenAt < t) :
    s.tick_to t = s := by
  rw [Sat.tick_to, dif_neg h]

theorem Sat.tick_to_iterate_aux :
    ∀ (n : ℕ) (s : Sat) (t : ℝ),
      Nat.ceil ((t - s.whenAt) / Sat.dtStep) = n →
      s.tick_to t = Sat.eulerStep^[n] s := by
  intro n
  induction n with
  | zero =>
    intro s t hn
    have hy : (t - s.whenAt) / Sat.dtStep ≤ 0 := Nat.ceil_eq_zero.mp hn
    have hdt : (0 : ℝ) < Sat.dtStep := by norm_num [Sat.dtStep]
    have ht : ¬ s.whenAt < t := by
      rw [div_nonpos_iff] at hy
      rcases hy with ⟨_, h2⟩ | ⟨h1, _⟩
      · linarith
      · linarith
    rw [Sat.tick_to_stopped s t ht]
    rfl
  | succ m ih =>
    intro s t hn
    have hdt : (0 : ℝ) < Sat.dtStep := by norm_num [Sat.dtStep]
    have hpos : 0 < Nat.ceil ((t - s.whenAt) / Sat.dtStep) := by omega
    have hy : 0 < (t - s.whenAt) / Sat.dtStep := Nat.ceil_pos.mp hpos
    have ht : s.whenAt < t := by
      by_contra hc
      have : (t - s.whenAt) / Sat.dtStep ≤ 0 :=
        div_nonpos_of_nonpos_of_nonneg (by linarith [not_lt.mp hc]) hdt.le
      linarith
    have hshift : (t - (Sat.eulerStep s).whenAt) / Sat.dtStep
        = (t - s.whenAt) / Sat.dtStep - 1 := by
      rw [Sat.eulerStep_whenAt]
      field_simp
      ring
    have hceil : Nat.ceil ((t - (Sat.eulerStep s).whenAt) / Sat.dtStep) = m := by
      rw [hshift]
      apply le_antisymm
      · rw [Nat.ceil_le]
        have h1 : (t - s.whenAt) / Sat.dtStep ≤ (m + 1 : ℕ) := by
          rw [← hn]
          exact Nat.le_ceil _
        push_cast at h1 ⊢
        linarith
      · rcases Nat.eq_zero_or_pos m with hm | hm
        · omega
        · have h2 : (m : ℝ) < (t - s.whenAt) / Sat.dtStep := by
            rw [← Nat.lt_ceil, hn]
            omega
          have h3 : ((m - 1 : ℕ) : ℝ) < (t - s.whenAt) / Sat.dtStep - 1 := by
            rw [Nat.cast_sub hm, Nat.cast_one]
            linarith
          have := Nat.lt_ceil.mpr h3
          omega
    rw [Sat.tick_to, dif_pos ht, ih _ t hceil, ← Function.iterate_succ_apply]

/-- Claim C10: `Sat::tick_to(t)` terminates after exactly
`ceil((t - when)/0.001)` Euler steps (0 when `t ≤ when`, in which case the
state is returned unchanged and no backward integration happens), and when
at least one step runs, the final as-of time lies in `[t, t + 0.001)`. -/
theorem claim_C10 (s : Sat) (t : ℝ) :
    s.tick_to t = Sat.eulerStep^[Nat.ceil ((t - s.whenAt) / Sat.dtStep)] s ∧
    (t ≤ s.whenAt → s.tick_to t = s) ∧
    (s.whenAt < t →
      t ≤ (s.tick_to t).whenAt ∧ (s.tick_to t).whenAt < t + Sat.dtStep) := by
  have hdt : (0 : ℝ) < Sat.dtStep := by norm_num [Sat.dtStep]
  have hiter := Sat.tick_to_iterate_aux (Nat.ceil ((t - s.whenAt) / Sat.dtStep)) s t rfl
  refine ⟨hiter, ?_, ?_⟩
  · intro ht
    exact Sat.tick_to_stopped s t (not_lt.mpr ht)
  · intro ht
    have hy : 0 < (t - s.whenAt) / Sat.dtStep := div_pos (by linarith) hdt
    have hwhen : (s.tick_to t).whenAt
        = s.whenAt + (Nat.ceil ((t - s.whenAt) / Sat.dtStep) : ℝ) * Sat.dtStep := by
      rw [hiter, Sat.iterate_whenAt]
    constructor
    · rw [hwhen]
      have h1 : (t - s.whenAt) / Sat.dtStep
          ≤ (Nat.ceil ((t - s.whenAt) / Sat.dtStep) : ℝ) := Nat.le_ceil _
      have h2 : t - s.whenAt
          ≤ (Nat.ceil ((t - s.whenAt) / Sat.dtStep) : ℝ) * Sat.dtStep :=
        (div_le_iff₀ hdt).mp h1
      linarith
    · rw [hwhen]
      have h1 : (Nat.ceil ((t - s.whenAt) / Sat.dtStep) : ℝ)
          < (t - s.whenAt) / Sat.dtStep + 1 := Nat.ceil_lt_add_one hy.le
      have h2 : (Nat.ceil ((t - s.whenAt) / Sat.dtStep) : ℝ) * Sat.dtStep
          < ((t - s.whenAt) / Sat.dtStep + 1) * Sat.dtStep :=
        mul_lt_mul_of_pos_right h1 hdt
      have h3 : ((t - s.whenAt) / Sat.dtStep + 1) * Sat.dtStep
          = t - s.whenAt + Sat.dtStep := by
        field_simp
      linarith

/-- Witness for claim C10 at a concrete state and target time. -/
theorem claim_C10_witness :
    (Sat.tick_to ⟨⟨1, 0⟩, ⟨0, 0⟩, 0⟩ 0 = ⟨⟨1, 0⟩, ⟨0, 0⟩, 0⟩) ∧
    ((5e-4 : ℝ) ≤ (Sat.tick_to ⟨⟨1, 0⟩, ⟨0, 0⟩, 0⟩ 5e-4).whenAt ∧
      (Sat.tick_to ⟨⟨1, 0⟩, ⟨0, 0⟩, 0⟩ 5e-4).whenAt < 5e-4 + Sat.dtStep) := by
  constructor
  · exact (claim_C10 ⟨⟨1, 0⟩, ⟨0, 0⟩, 0⟩ 0).2.1 (le_refl 0)
  · exact (claim_C10 ⟨⟨1, 0⟩, ⟨0, 0⟩, 0⟩ 5e-4).2.2 (by norm_num)

/-- Claim C8: `Sat::tick_to` advances by repeated semi-implicit Euler steps
with fixed timestep 0.001: while the as-of time is below the target, the
acceleration `-pos * mu / |pos|^3` is computed from the current position, the
velocity is updated first, the position is then updated with the
already-updated velocity, and the as-of time advances by the timestep;
otherwise the state is returned unchanged. -/
theorem claim_C8 (s : Sat) (t : ℝ) :
    Sat.acceleration s = -s.pos * PULL /
      (Vec2.length s.pos * Vec2.length s.pos * Vec2.length s.pos) ∧
    (s.whenAt < t → s.tick_to t =
      Sat.tick_to
        { pos := s.pos + (s.vel + Sat.acceleration s * Sat.dtStep) * Sat.dtStep
          vel := s.vel + Sat.acceleration s * Sat.dtStep
          whenAt := s.whenAt + Sat.dtStep } t) ∧
    (¬ s.whenAt < t → s.tick_to t = s) := by
  refine ⟨rfl, ?_, Sat.tick_to_stopped s t⟩
  intro ht
  rw [Sat.tick_to, dif_pos ht]
  rfl

/-- Witness for claim C8 at a concrete state and target time. -/
theorem claim_C8_witness :
    (Sat.tick_to ⟨⟨1, 0⟩, ⟨0, 1⟩, 0⟩ 1 =
      Sat.tick_to
        { pos := (⟨1, 0⟩ : Vec2) +
            ((⟨0, 1⟩ : Vec2) + Sat.acceleration ⟨⟨1, 0⟩, ⟨0, 1⟩, 0⟩ * Sat.dtStep) * Sat.dtStep
          vel := (⟨0, 1⟩ : Vec2) + Sat.acceleration ⟨⟨1, 0⟩, ⟨0, 1⟩, 0⟩ * Sat.dtStep
          whenAt := 0 + Sat.dtStep } 1) ∧
    Sat.tick_to ⟨⟨1, 0⟩, ⟨0, 1⟩, 2⟩ 1 = ⟨⟨1, 0⟩, ⟨0, 1⟩, 2⟩ := by
  constructor
  · exact (claim_C8 ⟨⟨1, 0⟩, ⟨0, 1⟩, 0⟩ 1).2.1 (by norm_num)
  · exact (claim_C8 ⟨⟨1, 0⟩, ⟨0, 1⟩, 2⟩ 1).2.2 (by norm_num)

/-! ### Claim C4: the acos guard in the inclination computation -/

/-- Counterexample for claim C4: the source does not clamp the cosine
argument to `[-1, 1]`; it guards only against values above 1.  At a cosine
argument of -2 the inclination expression of src/src/orbit.rs lines 114-118
applies acos outside its domain and yields NaN (`none`), while the clamping
the claim describes would yield acos(-1) = pi. -/
theorem claim_C4_counterexample :
    Csv.incFromCosInc (-2) = none ∧ Csv.incClamped (-2) = some Real.pi := by
  constructor
  · norm_num [Csv.incFromCosInc, acosOpt]
  · have hmin : min (1 : ℝ) (-2) = -2 := by norm_num
    have hmax : max (-1 : ℝ) (-2) = -1 := by norm_num
    rw [Csv.incClamped, hmin, hmax, Real.arccos_neg_one]

/-- Claim C4 as amended: the guard of `Koe::from_csv` is one-sided (only a
cosine above 1 is intercepted, yielding inclination 0), so a cosine argument
below -1 would still be an acos domain error; nevertheless, for every input
whose angular momentum `h = cross(r, v)` is nonzero, the exact quantity
`dot(h, k)/norm(h)` lies in `[-1, 1]`, hence the computed inclination is
never NaN and agrees with the total-real inclination of the embedding. -/
theorem claim_C4_amended (r v : Vec3) (mu : ℝ)
    (hh : Csv.hvec ⟨r, v, CB.new mu⟩ ≠ 0) :
    (-1 ≤ Csv.cosInc ⟨r, v, CB.new mu⟩ ∧ Csv.cosInc ⟨r, v, CB.new mu⟩ ≤ 1) ∧
    Csv.incFromCosInc (Csv.cosInc ⟨r, v, CB.new mu⟩)
      = some (Csv.incOf ⟨r, v, CB.new mu⟩) := by
  set csv : Csv := ⟨r, v, CB.new mu⟩ with hcsv
  set h : Vec3 := Csv.hvec csv with hdefh
  have hk : csv.cb.k = ⟨0, 0, 1⟩ := rfl
  have hdot : Vec3.dot h csv.cb.k = h.z := by
    rw [hk]
    unfold Vec3.dot
    ring
  have hnpos : 0 < Vec3.norm h := Vec3.norm_pos h hh
  have habs : |h.z| ≤ Vec3.norm h := by
    have h1 : h.z * h.z ≤ Vec3.sqnorm h := by
      unfold Vec3.sqnorm Vec3.dot
      nlinarith [mul_self_nonneg h.x, mul_self_nonneg h.y]
    have h2 : Real.sqrt (h.z * h.z) ≤ Real.sqrt (Vec3.sqnorm h) :=
      Real.sqrt_le_sqrt h1
    calc |h.z| = Real.sqrt (h.z * h.z) := by
          rw [← Real.sqrt_mul_self_eq_abs]
      _ ≤ Vec3.norm h := h2
  have hbound : |Csv.cosInc csv| ≤ 1 := by
    unfold Csv.cosInc
    rw [← hdefh, hdot, abs_div, abs_of_pos hnpos, div_le_one hnpos]
    exact habs
  have hb := abs_le.mp hbound
  refine ⟨hb, ?_⟩
  unfold Csv.incFromCosInc acosOpt Csv.incOf
  rw [if_neg (not_lt.mpr hb.2), if_neg (not_lt.mpr hb.2), if_neg]
  push_neg
  exact ⟨hb.1, hb.2⟩

/-- Witness for the amended claim C4 at a concrete state. -/
theorem claim_C4_witness :
    (-1 ≤ Csv.cosInc ⟨⟨1, 0, 0⟩, ⟨0, 1, 0⟩, CB.new 1⟩ ∧
      Csv.cosInc ⟨⟨1, 0, 0⟩, ⟨0, 1, 0⟩, CB.new 1⟩ ≤ 1) ∧
    Csv.incFromCosInc (Csv.cosInc ⟨⟨1, 0, 0⟩, ⟨0, 1, 0⟩, CB.new 1⟩)
      = some (Csv.incOf ⟨⟨1, 0, 0⟩, ⟨0, 1, 0⟩, CB.new 1⟩) := by
  apply claim_C4_amended
  intro hc
  have hz : (Csv.hvec ⟨⟨1, 0, 0⟩, ⟨0, 1, 0⟩, CB.new 1⟩).z = 1 := by
    unfold Csv.hvec Vec3.cross
    norm_num
  rw [hc] at hz
  simp at hz

/-! ### Claim C9: the cached rotation versus the unconditional composition -/

/-- Definition following the spec wording for claim C9: the unconditional
composition of the three rotations, about `k` by `lan`, about `i` by `inc`
and about `k` by `ap`, the `ap` rotation applied first (the prepend order of
the source). -/
def rotUnconditional (cb : CB) (lan inc ap : ℝ) : Vec3 → Vec3 :=
  fun p => rodrigues (cb.k * lan) (rodrigues (cb.i * inc) (rodrigues (cb.k * ap) p))

theorem Koe.new_rot (a e inc lan ap m0 : ℝ) (cb : CB) :
    (Koe.new a e inc lan ap m0 cb).rot
      = if approxEq e 0 then
          (if approxEq inc 0 then id
           else fun p => rodrigues (cb.k * lan) (rodrigues (cb.i * inc) p))
        else
          (if approxEq inc 0 then fun p => rodrigues (cb.k * ap) p
           else fun p => rodrigues (cb.k * lan)
              (rodrigues (cb.i * inc) (rodrigues (cb.k * ap) p))) := by
  unfold Koe.new
  by_cases h1 : approxEq inc 0 <;> by_cases h2 : approxEq e 0 <;> simp [h1, h2]

theorem Vec3.norm_single_x (c : ℝ) (hc : 0 ≤ c) : Vec3.norm ⟨c, 0, 0⟩ = c := by
  show Real.sqrt (c * c + 0 * 0 + 0 * 0) = c
  rw [show c * c + 0 * 0 + 0 * 0 = c ^ 2 by ring, Real.sqrt_sq hc]

theorem Vec3.norm_single_z (c : ℝ) (hc : 0 ≤ c) : Vec3.norm ⟨0, 0, c⟩ = c := by
  show Real.sqrt (0 * 0 + 0 * 0 + c * c) = c
  rw [show (0 : ℝ) * 0 + 0 * 0 + c * c = c ^ 2 by ring, Real.sqrt_sq hc]

theorem rodrigues_eval (w v : Vec3) (t : ℝ) (ht : Vec3.norm w = t) (htne : t ≠ 0) :
    rodrigues w v = v * Real.cos t + Vec3.cross (w / t) v * Real.sin t +
      (w / t) * ((1 - Real.cos t) * Vec3.dot (w / t) v) := by
  unfold rodrigues
  rw [ht, if_neg htne]

theorem rodrigues_x_axis_small (d : ℝ) (hd : 0 < d) :
    rodrigues ((⟨1, 0, 0⟩ : Vec3) * d) ⟨0, 1, 0⟩
      = ⟨0, Real.cos d, Real.sin d⟩ := by
  have hx : (⟨1, 0, 0⟩ : Vec3) * d = ⟨d, 0, 0⟩ := by
    ext <;> simp
  rw [hx, rodrigues_eval ⟨d, 0, 0⟩ ⟨0, 1, 0⟩ d (Vec3.norm_single_x d hd.le) hd.ne.symm]
  ext <;> simp [Vec3.cross, Vec3.dot] <;> field_simp

theorem rodrigues_z_axis_pi (v : Vec3) :
    rodrigues ((⟨0, 0, 1⟩ : Vec3) * Real.pi) v = ⟨-v.x, -v.y, v.z⟩ := by
  have hz : (⟨0, 0, 1⟩ : Vec3) * Real.pi = ⟨0, 0, Real.pi⟩ := by
    ext <;> simp
  rw [hz, rodrigues_eval ⟨0, 0, Real.pi⟩ v Real.pi
    (Vec3.norm_single_z Real.pi Real.pi_pos.le) Real.pi_ne_zero]
  have hu : (⟨0, 0, Real.pi⟩ : Vec3) / Real.pi = ⟨0, 0, 1⟩ := by
    ext <;> simp [div_self Real.pi_ne_zero]
  rw [hu]
  ext <;> simp [Vec3.cross, Vec3.dot, Real.cos_pi, Real.sin_pi] <;> ring

/-- Counterexample for claim C9: the source skips the `lan` and `inc`
rotations whenever the inclination is only approximately zero.  At
inclination 1e-8 (within the tolerance but nonzero) with `lan = pi`,
`e = 1/2` and `ap = 0`, the cached rotation of `Koe::new` is the identity
while the unconditional composition of the three rotations is not, so the
two constructions differ. -/
theorem claim_C9_counterexample :
    (Koe.new 1 (1/2) 1e-8 Real.pi 0 0 (CB.new 1)).rot
      ≠ rotUnconditional (CB.new 1) Real.pi 1e-8 0 := by
  have hd : (0 : ℝ) < 1e-8 := by norm_num
  have h1 : approxEq 1e-8 0 := by
    unfold approxEq approxEps
    rw [sub_zero, abs_of_pos hd]
    norm_num
  have h2 : ¬ approxEq (1/2 : ℝ) 0 := by
    unfold approxEq approxEps
    rw [sub_zero, abs_of_pos (by norm_num : (0 : ℝ) < 1/2)]
    norm_num
  intro hEq
  have happ := congrFun hEq ⟨0, 1, 0⟩
  have hL : (Koe.new 1 (1/2) 1e-8 Real.pi 0 0 (CB.new 1)).rot ⟨0, 1, 0⟩
      = ⟨0, 1, 0⟩ := by
    rw [Koe.new_rot, if_neg h2, if_pos h1]
    exact rodrigues_axis_zero_angle _ _
  have hR : rotUnconditional (CB.new 1) Real.pi 1e-8 0 ⟨0, 1, 0⟩
      = ⟨0, -Real.cos 1e-8, Real.sin 1e-8⟩ := by
    unfold rotUnconditional
    have hk : (CB.new 1).k = ⟨0, 0, 1⟩ := rfl
    have hi : (CB.new 1).i = ⟨1, 0, 0⟩ := rfl
    rw [hk, hi, rodrigues_axis_zero_angle, rodrigues_x_axis_small 1e-8 hd,
      rodrigues_z_axis_pi]
    ext <;> simp
  rw [hL, hR] at happ
  have hy : (1 : ℝ) = -Real.cos 1e-8 := congrArg Vec3.y happ
  have hcos : 0 < Real.cos 1e-8 := by
    apply Real.cos_pos_of_mem_Ioo
    constructor
    · have := Real.pi_pos
      norm_num
      linarith
    · have := Real.pi_gt_three
      norm_num
      linarith
  linarith

/-- Claim C9 as amended: whenever the angles the degenerate branches skip
are exactly zero (if the inclination is approximately zero then `inc = 0`
and `lan = 0`; if the eccentricity is approximately zero then `ap = 0` —
which is what `Koe::from_csv` in fact produces only up to tolerance), the
rotation cached by `Koe::new` equals the unconditional composition of the
three rotations, and `Csv::from_koe` yields the same result under either
construction. -/
theorem claim_C9_amended (a e inc lan ap m0 : ℝ) (cb : CB)
    (hinc : approxEq inc 0 → inc = 0 ∧ lan = 0)
    (hecc : approxEq e 0 → ap = 0) :
    (Koe.new a e inc lan ap m0 cb).rot = rotUnconditional cb lan inc ap ∧
    Csv.from_koe (Koe.new a e inc lan ap m0 cb)
      = Csv.from_koe { Koe.new a e inc lan ap m0 cb with
          rot := rotUnconditional cb lan inc ap } := by
  have hrot : (Koe.new a e inc lan ap m0 cb).rot = rotUnconditional cb lan inc ap := by
    rw [Koe.new_rot]
    by_cases h1 : approxEq inc 0
    · obtain ⟨hi0, hl0⟩ := hinc h1
      subst hi0
      subst hl0
      by_cases h2 : approxEq e 0
      · have hap := hecc h2
        subst hap
        rw [if_pos h2, if_pos h1]
        funext p
        simp [rotUnconditional, rodrigues_axis_zero_angle]
      · rw [if_neg h2, if_pos h1]
        funext p
        simp [rotUnconditional, rodrigues_axis_zero_angle]
    · by_cases h2 : approxEq e 0
      · have hap := hecc h2
        subst hap
        rw [if_pos h2, if_neg h1]
        funext p
        simp [rotUnconditional, rodrigues_axis_zero_angle]
      · rw [if_neg h2, if_neg h1]
        rfl
  refine ⟨hrot, ?_⟩
  have hsame : { Koe.new a e inc lan ap m0 cb with
      rot := rotUnconditional cb lan inc ap } = Koe.new a e inc lan ap m0 cb := by
    rw [← hrot]
  rw [hsame]

/-- Witness for the amended claim C9 at concrete orbital elements. -/
theorem claim_C9_witness :
    (Koe.new 1 0 0 0 0 0 (CB.new 1)).rot = rotUnconditional (CB.new 1) 0 0 0 ∧
    Csv.from_koe (Koe.new 1 0 0 0 0 0 (CB.new 1))
      = Csv.from_koe { Koe.new 1 0 0 0 0 0 (CB.new 1) with
          rot := rotUnconditional (CB.new 1) 0 0 0 } :=
  claim_C9_amended 1 0 0 0 0 0 (CB.new 1) (fun _ => ⟨rfl, rfl⟩) (fun _ => rfl)

/-! ### Claim C5: degenerate branches and the circular equatorial round trip -/

/-- Family of exactly circular equatorial Cartesian states: radius `R`,
phase `θ`, circular speed `sqrt(mu/R)` perpendicular to the radius, in the
equatorial plane of `CB::new mu`. -/
def circCsv (mu R θ : ℝ) : Csv :=
  { r := ⟨R * Real.cos θ, R * Real.sin θ, 0⟩
    v := ⟨-(Real.sqrt (mu / R) * Real.sin θ), Real.sqrt (mu / R) * Real.cos θ, 0⟩
    cb := CB.new mu }

theorem approxEq_zero_zero : approxEq 0 0 := by
  unfold approxEq approxEps
  norm_num

theorem CB.new_i (mu : ℝ) : (CB.new mu).i = ⟨1, 0, 0⟩ := rfl

theorem CB.new_j (mu : ℝ) : (CB.new mu).j = ⟨0, 1, 0⟩ := by
  show Vec3.cross ⟨0, 0, 1⟩ ⟨1, 0, 0⟩ = _
  unfold Vec3.cross
  ext <;> norm_num

theorem CB.new_k (mu : ℝ) : (CB.new mu).k = ⟨0, 0, 1⟩ := rfl

theorem circ_hvec (mu R θ : ℝ) :
    Csv.hvec (circCsv mu R θ) = ⟨0, 0, R * Real.sqrt (mu / R)⟩ := by
  unfold circCsv Csv.hvec Vec3.cross
  have h := Real.sin_sq_add_cos_sq θ
  ext
  · show R * Real.sin θ * 0 - 0 * (Real.sqrt (mu / R) * Real.cos θ) = 0
    ring
  · show 0 * -(Real.sqrt (mu / R) * Real.sin θ) - R * Real.cos θ * 0 = 0
    ring
  · show R * Real.cos θ * (Real.sqrt (mu / R) * Real.cos θ) -
        R * Real.sin θ * -(Real.sqrt (mu / R) * Real.sin θ) = R * Real.sqrt (mu / R)
    linear_combination (R * Real.sqrt (mu / R)) * h

theorem circ_norm_r (mu R θ : ℝ) (hR : 0 < R) :
    Vec3.norm (circCsv mu R θ).r = R := by
  show Real.sqrt (R * Real.cos θ * (R * Real.cos θ) +
    R * Real.sin θ * (R * Real.sin θ) + 0 * 0) = R
  have h := Real.sin_sq_add_cos_sq θ
  rw [show R * Real.cos θ * (R * Real.cos θ) + R * Real.sin θ * (R * Real.sin θ) +
      0 * 0 = R ^ 2 by linear_combination (R ^ 2) * h]
  exact Real.sqrt_sq hR.le

theorem circ_eVec (mu R θ : ℝ) (hmu : 0 < mu) (hR : 0 < R) :
    Csv.eVec (circCsv mu R θ) = 0 := by
  have hw2 : Real.sqrt (mu / R) * Real.sqrt (mu / R) = mu / R :=
    Real.mul_self_sqrt (div_nonneg hmu.le hR.le)
  unfold Csv.eVec Vec3.normalize
  rw [circ_hvec, circ_norm_r mu R θ hR]
  have h := Real.sin_sq_add_cos_sq θ
  show Vec3.cross (circCsv mu R θ).v ⟨0, 0, R * Real.sqrt (mu / R)⟩ / (CB.new mu).mu -
      (circCsv mu R θ).r / R = 0
  unfold circCsv Vec3.cross CB.new
  ext
  · show (Real.sqrt (mu / R) * Real.cos θ * (R * Real.sqrt (mu / R)) -
        0 * 0) / mu - R * Real.cos θ / R = 0
    rw [show Real.sqrt (mu / R) * Real.cos θ * (R * Real.sqrt (mu / R)) - 0 * 0
        = Real.cos θ * R * (Real.sqrt (mu / R) * Real.sqrt (mu / R)) from by ring, hw2]
    field_simp
    ring
  · show (0 * 0 - -(Real.sqrt (mu / R) * Real.sin θ) * (R * Real.sqrt (mu / R))) / mu -
        R * Real.sin θ / R = 0
    rw [show (0 : ℝ) * 0 - -(Real.sqrt (mu / R) * Real.sin θ) * (R * Real.sqrt (mu / R))
        = Real.sin θ * R * (Real.sqrt (mu / R) * Real.sqrt (mu / R)) from by ring, hw2]
    field_simp
    ring
  · show (-(Real.sqrt (mu / R) * Real.sin θ) * 0 -
        Real.sqrt (mu / R) * Real.cos θ * 0) / mu - 0 / R = 0
    field_simp

theorem circ_es (mu R θ : ℝ) (hmu : 0 < mu) (hR : 0 < R) :
    Csv.es (circCsv mu R θ) = 0 := by
  unfold Csv.es
  rw [circ_eVec mu R θ hmu hR]
  exact Vec3.norm_zero

theorem circ_cosInc (mu R θ : ℝ) (hmu : 0 < mu) (hR : 0 < R) :
    Csv.cosInc (circCsv mu R θ) = 1 := by
  have hw : 0 < Real.sqrt (mu / R) := Real.sqrt_pos.mpr (div_pos hmu hR)
  have hRw : 0 < R * Real.sqrt (mu / R) := mul_pos hR hw
  unfold Csv.cosInc
  rw [circ_hvec]
  show Vec3.dot ⟨0, 0, R * Real.sqrt (mu / R)⟩ (CB.new mu).k /
      Vec3.norm ⟨0, 0, R * Real.sqrt (mu / R)⟩ = 1
  rw [CB.new_k, Vec3.norm_single_z _ hRw.le]
  show (0 * 0 + 0 * 0 + R * Real.sqrt (mu / R) * 1) / (R * Real.sqrt (mu / R)) = 1
  field_simp

theorem circ_inc (mu R θ : ℝ) (hmu : 0 < mu) (hR : 0 < R) :
    Csv.incOf (circCsv mu R θ) = 0 := by
  unfold Csv.incOf
  rw [circ_cosInc mu R θ hmu hR, if_neg (lt_irrefl 1), Real.arccos_one]

theorem circ_lan (mu R θ : ℝ) (hmu : 0 < mu) (hR : 0 < R) :
    Csv.lanOf (circCsv mu R θ) = 0 := by
  unfold Csv.lanOf
  rw [circ_inc mu R θ hmu hR, if_pos approxEq_zero_zero]

theorem circ_ap (mu R θ : ℝ) (hmu : 0 < mu) (hR : 0 < R) :
    Csv.apOf (circCsv mu R θ) = 0 := by
  unfold Csv.apOf
  rw [circ_es mu R θ hmu hR, if_pos approxEq_zero_zero]

theorem sin_neg_of_pi_lt (θ : ℝ) (h1 : Real.pi < θ) (h2 : θ < 2 * Real.pi) :
    Real.sin θ < 0 := by
  have hpos : 0 < Real.sin (θ - Real.pi) :=
    Real.sin_pos_of_pos_of_lt_pi (by linarith) (by linarith)
  have heq : Real.sin θ = -Real.sin (θ - Real.pi) := by
    have h3 := Real.sin_add_pi (θ - Real.pi)
    rw [show θ - Real.pi + Real.pi = θ from by ring] at h3
    exact h3
  linarith [heq, hpos]

theorem arccos_cos_of_mem_upper (θ : ℝ) (h1 : Real.pi ≤ θ) (h2 : θ ≤ 2 * Real.pi) :
    Real.arccos (Real.cos θ) = 2 * Real.pi - θ := by
  have hcos : Real.cos θ = Real.cos (2 * Real.pi - θ) := by
    rw [show 2 * Real.pi - θ = -(θ - 2 * Real.pi) by ring, Real.cos_neg,
      Real.cos_sub_two_pi]
  rw [hcos, Real.arccos_cos (by linarith) (by linarith)]

theorem circ_ta (mu R θ : ℝ) (hmu : 0 < mu) (hR : 0 < R)
    (hθ0 : 0 ≤ θ) (hθ2 : θ < 2 * Real.pi) :
    Csv.taOf (circCsv mu R θ) = θ := by
  have hw : 0 < Real.sqrt (mu / R) := Real.sqrt_pos.mpr (div_pos hmu hR)
  unfold Csv.taOf
  rw [circ_es mu R θ hmu hR, circ_inc mu R θ hmu hR,
    if_pos approxEq_zero_zero, if_pos approxEq_zero_zero]
  unfold Csv.taLon
  have hdotiv : Vec3.dot (circCsv mu R θ).cb.i (circCsv mu R θ).v
      = -(Real.sqrt (mu / R) * Real.sin θ) := by
    show 1 * -(Real.sqrt (mu / R) * Real.sin θ) +
      0 * (Real.sqrt (mu / R) * Real.cos θ) + 0 * 0 = _
    ring
  have hdotir : Vec3.dot (circCsv mu R θ).cb.i (circCsv mu R θ).r
      = R * Real.cos θ := by
    show 1 * (R * Real.cos θ) + 0 * (R * Real.sin θ) + 0 * 0 = _
    ring
  have hnormi : Vec3.norm (circCsv mu R θ).cb.i = 1 := by
    show Vec3.norm ⟨1, 0, 0⟩ = 1
    exact Vec3.norm_single_x 1 one_pos.le
  rw [hdotiv, hdotir, hnormi, circ_norm_r mu R θ hR]
  have hfrac : R * Real.cos θ / (1 * R) = Real.cos θ := by
    field_simp
  rw [hfrac]
  by_cases hpi : θ ≤ Real.pi
  · have hs : 0 ≤ Real.sin θ := Real.sin_nonneg_of_nonneg_of_le_pi hθ0 hpi
    rw [if_pos (by nlinarith : -(Real.sqrt (mu / R) * Real.sin θ) ≤ 0)]
    exact Real.arccos_cos hθ0 hpi
  · push_neg at hpi
    have hs : Real.sin θ < 0 := sin_neg_of_pi_lt θ hpi hθ2
    rw [if_neg (by nlinarith : ¬ -(Real.sqrt (mu / R) * Real.sin θ) ≤ 0)]
    rw [arccos_cos_of_mem_upper θ hpi.le hθ2.le]
    ring

theorem circ_a (mu R θ : ℝ) (hmu : 0 < mu) (hR : 0 < R) :
    Csv.aOf (circCsv mu R θ) = R := by
  have hw2 : Real.sqrt (mu / R) * Real.sqrt (mu / R) = mu / R :=
    Real.mul_self_sqrt (div_nonneg hmu.le hR.le)
  have h := Real.sin_sq_add_cos_sq θ
  unfold Csv.aOf
  rw [circ_norm_r mu R θ hR]
  have hsq : Vec3.sqnorm (circCsv mu R θ).v = mu / R := by
    show -(Real.sqrt (mu / R) * Real.sin θ) * -(Real.sqrt (mu / R) * Real.sin θ) +
      Real.sqrt (mu / R) * Real.cos θ * (Real.sqrt (mu / R) * Real.cos θ) + 0 * 0
      = mu / R
    rw [show -(Real.sqrt (mu / R) * Real.sin θ) * -(Real.sqrt (mu / R) * Real.sin θ) +
        Real.sqrt (mu / R) * Real.cos θ * (Real.sqrt (mu / R) * Real.cos θ) + 0 * 0
        = (Real.sqrt (mu / R) * Real.sqrt (mu / R)) *
          (Real.sin θ ^ 2 + Real.cos θ ^ 2) from by ring, h, hw2]
    ring
  rw [hsq]
  rw [show (circCsv mu R θ).cb.mu = mu from rfl]
  rw [show 2 / R - mu / R / mu = 1 / R from by
    rw [div_div, mul_comm R mu, ← div_div, div_self hmu.ne.symm]
    ring]
  field_simp

theorem circ_m0 (mu R θ : ℝ) (hmu : 0 < mu) (hR : 0 < R)
    (hθ0 : 0 ≤ θ) (hθ2 : θ < 2 * Real.pi) :
    Csv.m0Of (circCsv mu R θ) = 2 * Real.arctan (Real.tan (θ / 2)) := by
  unfold Csv.m0Of Csv.eaOf
  rw [circ_es mu R θ hmu hR, circ_ta mu R θ hmu hR hθ0 hθ2]
  norm_num

theorem newton_raphson_e_zero (m : ℝ) : ∀ k, Csv.newton_raphson m 0 k = m := by
  intro k
  induction k with
  | zero => rfl
  | succ n ih =>
    show Csv.newton_raphson m 0 n -
      (Csv.newton_raphson m 0 n - 0 * Real.sin (Csv.newton_raphson m 0 n) - m) /
        (1 - 0 * Real.cos (Csv.newton_raphson m 0 n)) = m
    rw [ih]
    ring

theorem atan2_cos_sin (u : ℝ) (h1 : -(Real.pi / 2) < u) (h2 : u < Real.pi / 2) :
    atan2 (Real.sin u) (Real.cos u) = u := by
  have hc : 0 < Real.cos u := Real.cos_pos_of_mem_Ioo ⟨h1, h2⟩
  unfold atan2
  rw [if_pos hc, ← Real.tan_eq_sin_div_cos, Real.arctan_tan h1 h2]

theorem sqrt_scale (mu R : ℝ) (hmu : 0 < mu) (hR : 0 < R) :
    Real.sqrt (mu * R) / R = Real.sqrt (mu / R) := by
  rw [show mu * R = (mu / R) * R ^ 2 from by field_simp; ring,
    Real.sqrt_mul (div_nonneg hmu.le hR.le), Real.sqrt_sq hR.le,
    mul_div_assoc, div_self hR.ne.symm, mul_one]

theorem Koe.new_m0 (a e inc lan ap m0 : ℝ) (cb : CB) :
    (Koe.new a e inc lan ap m0 cb).m0 = m0 := rfl

theorem Koe.new_a (a e inc lan ap m0 : ℝ) (cb : CB) :
    (Koe.new a e inc lan ap m0 cb).a = a := rfl

theorem Koe.new_e (a e inc lan ap m0 : ℝ) (cb : CB) :
    (Koe.new a e inc lan ap m0 cb).e = e := rfl

theorem Koe.new_lan (a e inc lan ap m0 : ℝ) (cb : CB) :
    (Koe.new a e inc lan ap m0 cb).lan = lan := rfl

theorem Koe.new_ap (a e inc lan ap m0 : ℝ) (cb : CB) :
    (Koe.new a e inc lan ap m0 cb).ap = ap := rfl

theorem Koe.new_inc (a e inc lan ap m0 : ℝ) (cb : CB) :
    (Koe.new a e inc lan ap m0 cb).inc = inc := rfl

theorem Koe.new_cb (a e inc lan ap m0 : ℝ) (cb : CB) :
    (Koe.new a e inc lan ap m0 cb).cb = cb := rfl

theorem from_koe_circ (mu R m : ℝ) (hmu : 0 < mu) (hR : 0 < R)
    (hm1 : -Real.pi < m) (hm2 : m < Real.pi) :
    Csv.from_koe (Koe.new R 0 0 0 0 m (CB.new mu))
      = ⟨⟨R * Real.cos m, R * Real.sin m, 0⟩,
         ⟨-(Real.sqrt (mu / R) * Real.sin m), Real.sqrt (mu / R) * Real.cos m, 0⟩,
         CB.new mu⟩ := by
  have hrot : (Koe.new R 0 0 0 0 m (CB.new mu)).rot = id := by
    rw [Koe.new_rot, if_pos approxEq_zero_zero, if_pos approxEq_zero_zero]
  have hta : 2 * atan2 (Real.sqrt (1 + 0) * Real.sin (m / 2))
      (Real.sqrt (1 - 0) * Real.cos (m / 2)) = m := by
    rw [show (1 : ℝ) + 0 = 1 from by ring, show (1 : ℝ) - 0 = 1 from by ring,
      Real.sqrt_one, one_mul, one_mul,
      atan2_cos_sin (m / 2) (by linarith) (by linarith)]
    ring
  simp only [Csv.from_koe, Koe.new_m0, Koe.new_e, Koe.new_a, Koe.new_cb, hrot,
    newton_raphson_e_zero m 10, hta, id_eq]
  have hdist : R * (1 - 0 * Real.cos m) = R := by ring
  rw [hdist, CB.new_j, CB.new_i, show (CB.new mu).mu = mu from rfl]
  have hsq1 : Real.sqrt (1 - 0 ^ 2) = 1 := by
    rw [show (1 : ℝ) - 0 ^ 2 = 1 from by ring, Real.sqrt_one]
  rw [hsq1, sqrt_scale mu R hmu hR]
  refine congrArg₂ (fun r v => Csv.mk r v (CB.new mu)) ?_ ?_
  · show ((⟨1, 0, 0⟩ : Vec3) * Real.cos m + (⟨0, 1, 0⟩ : Vec3) * Real.sin m) * R = _
    ext <;> simp <;> ring
  · show ((⟨1, 0, 0⟩ : Vec3) * (-Real.sin m) +
      (⟨0, 1, 0⟩ : Vec3) * (1 * Real.cos m)) * Real.sqrt (mu / R) = _
    ext <;> simp <;> ring

theorem circ_roundtrip (mu R θ : ℝ) (hmu : 0 < mu) (hR : 0 < R)
    (hθ0 : 0 ≤ θ) (hθ2 : θ < 2 * Real.pi) (hne : θ ≠ Real.pi) :
    Csv.from_koe (Koe.from_csv (circCsv mu R θ)) = circCsv mu R θ := by
  have hK : Koe.from_csv (circCsv mu R θ)
      = Koe.new R 0 0 0 0 (2 * Real.arctan (Real.tan (θ / 2))) (CB.new mu) := by
    unfold Koe.from_csv
    rw [circ_a mu R θ hmu hR, circ_es mu R θ hmu hR, circ_inc mu R θ hmu hR,
      circ_lan mu R θ hmu hR, circ_ap mu R θ hmu hR,
      circ_m0 mu R θ hmu hR hθ0 hθ2]
    rfl
  rw [hK]
  rcases lt_or_gt_of_ne hne with hlt | hgt
  · have hm : 2 * Real.arctan (Real.tan (θ / 2)) = θ := by
      rw [Real.arctan_tan (by linarith [Real.pi_pos]) (by linarith)]
      ring
    rw [hm, from_koe_circ mu R θ hmu hR (by linarith [Real.pi_pos]) hlt]
    rfl
  · have hm : 2 * Real.arctan (Real.tan (θ / 2)) = θ - 2 * Real.pi := by
      have hper : Real.tan (θ / 2) = Real.tan (θ / 2 - Real.pi) :=
        (Real.tan_periodic.sub_eq (θ / 2)).symm
      rw [hper, Real.arctan_tan (by linarith) (by linarith [Real.pi_pos])]
      ring
    rw [hm, from_koe_circ mu R (θ - 2 * Real.pi) hmu hR (by linarith)
      (by linarith [Real.pi_pos])]
    unfold circCsv
    rw [Real.cos_sub_two_pi, Real.sin_sub_two_pi]

/-- Claim C5: a state whose derived eccentricity is approximately zero gets
`ap = 0` from `Koe::from_csv`; a state whose derived inclination is
approximately zero gets `lan = 0`; when both degeneracies hold the internal
true anomaly is the longitude branch (angle from the reference axis `i` to
`r`); and an exactly circular equatorial state round-trips through
`Koe::from_csv` followed by `Csv::from_koe` (every phase except the
removable modelling singularity of exact tangent at pi/2). -/
theorem claim_C5 :
    (∀ csv : Csv, approxEq (Csv.es csv) 0 → (Koe.from_csv csv).ap = 0) ∧
    (∀ csv : Csv, approxEq (Csv.incOf csv) 0 → (Koe.from_csv csv).lan = 0) ∧
    (∀ csv : Csv, approxEq (Csv.es csv) 0 → approxEq (Csv.incOf csv) 0 →
      Csv.taOf csv = Csv.taLon csv) ∧
    (∀ mu R θ : ℝ, 0 < mu → 0 < R → 0 ≤ θ → θ < 2 * Real.pi → θ ≠ Real.pi →
      Csv.from_koe (Koe.from_csv (circCsv mu R θ)) = circCsv mu R θ) := by
  refine ⟨?_, ?_, ?_, ?_⟩
  · intro csv hes
    show Csv.apOf csv = 0
    unfold Csv.apOf
    rw [if_pos hes]
  · intro csv hinc
    show Csv.lanOf csv = 0
    unfold Csv.lanOf
    rw [if_pos hinc]
  · intro csv hes hinc
    unfold Csv.taOf
    rw [if_pos hes, if_pos hinc]
  · intro mu R θ hmu hR h0 h2 hne
    exact circ_roundtrip mu R θ hmu hR h0 h2 hne

/-- Witness for claim C5 at a concrete circular equatorial state. -/
theorem claim_C5_witness :
    (Koe.from_csv (circCsv 1 1 0)).ap = 0 ∧
    (Koe.from_csv (circCsv 1 1 0)).lan = 0 ∧
    Csv.taOf (circCsv 1 1 0) = Csv.taLon (circCsv 1 1 0) ∧
    Csv.from_koe (Koe.from_csv (circCsv 1 1 0)) = circCsv 1 1 0 := by
  obtain ⟨h1, h2, h3, h4⟩ := claim_C5
  have hes : approxEq (Csv.es (circCsv 1 1 0)) 0 := by
    rw [circ_es 1 1 0 one_pos one_pos]
    exact approxEq_zero_zero
  have hinc : approxEq (Csv.incOf (circCsv 1 1 0)) 0 := by
    rw [circ_inc 1 1 0 one_pos one_pos]
    exact approxEq_zero_zero
  exact ⟨h1 _ hes, h2 _ hinc, h3 _ hes hinc,
    h4 1 1 0 one_pos one_pos le_rfl Real.two_pi_pos (Ne.symm Real.pi_ne_zero)⟩

end
